import Mathlib

/- Shallow embedding of the backtesting engine (src/backtest/engine.py):
the sliding-window fold generator (`create_sliding_windows`), the
rule-based decision oracle (`rule_based_strategy`), the PnL simulation
state machine (`simulate_pnl`), and the cross-fold aggregation performed
inline by `run_backtest` (embedded here as `aggregateResults`).

Numbers are modelled as rationals; Python `round(x, d)` (round half to
even) is modelled by `pyround`.  Division in `ℚ` is total with `x / 0 = 0`
where Python would raise `ZeroDivisionError`; claims that turn on a
division site carry the hypotheses that make the site well defined.
Dictionary fields that may be absent (or `None`) are modelled as `Option`;
Python truthiness of a numeric field (`if not price: ...`) is `none` or
`some 0`.  Text fields never read by any verified component (the
`reasoning` string of a decision, OHLCV fields other than `close`) are
elided. -/

/-- Ten to a natural power, as a rational. -/
def pow10 (d : ℕ) : ℚ := ((10 ^ d : ℕ) : ℚ)

/-- Round half to even of a rational to an integer, the tie-breaking rule of
Python's built-in `round`. -/
def rhalfeven (x : ℚ) : ℤ :=
  if x - (Rat.floor x : ℚ) < 1 / 2 then Rat.floor x
  else if 1 / 2 < x - (Rat.floor x : ℚ) then Rat.floor x + 1
  else if Rat.floor x % 2 = 0 then Rat.floor x else Rat.floor x + 1

/-- Python `round(x, d)` on our rational model of the engine's floats. -/
def pyround (x : ℚ) (d : ℕ) : ℚ := (rhalfeven (x * pow10 d) : ℚ) / pow10 d

/-- One hourly candle.  Only the fields read by the embedded functions are
kept: `timestamp`, `close`, and the three indicator fields read by
`rule_based_strategy`.  A `none` close models an absent/`None` value. -/
structure Candle where
  timestamp : String
  close : Option ℚ
  rsi_14 : Option ℚ := none
  macd_histogram : Option ℚ := none
  bb_position : Option ℚ := none
deriving DecidableEq, Repr

/-- One trading decision, as the dict consumed by `simulate_pnl` and produced
by the oracles.  `none` models an absent dictionary key.  The `reasoning`
text is elided (never read). -/
structure Decision where
  candle_index : Option ℤ := none
  candle_idx : Option ℤ := none
  action : Option String := none
  position_size_pct : Option ℚ := none
  confidence : Option ℚ := none
deriving DecidableEq, Repr

/-- One entry of the append-only trade log of `simulate_pnl`.  `size_usd` is
present on SHORT/INCREASE_SHORT trades, `pnl_btc` on CLOSE/REDUCE/FINAL_CLOSE
trades; the FINAL_CLOSE trade carries no timestamp, mirroring the dict keys
used at each append site. -/
structure Trade where
  candle_idx : ℤ
  action : String
  price : ℚ
  size_usd : Option ℚ := none
  pnl_btc : Option ℚ := none
  timestamp : Option String := none
deriving DecidableEq, Repr

/-- One point of the equity curve.  The synthetic starting point carries
`candle_idx = -1` and no price/action, mirroring the initial dict. -/
structure EquityPoint where
  candle_idx : ℤ
  equity : ℚ
  timestamp : String
  price : Option ℚ := none
  action : Option String := none
deriving DecidableEq, Repr

/-- One train/test fold descriptor as built by `create_sliding_windows`. -/
structure Window where
  fold_id : ℕ
  train_start_idx : ℕ
  train_end_idx : ℕ
  test_start_idx : ℕ
  test_end_idx : ℕ
  train_candles : List Candle
  test_candles : List Candle
  train_period_start : String
  train_period_end : String
  test_period_start : String
  test_period_end : String
deriving DecidableEq, Repr

/-- The fatal error of the fold generator (the `ValueError` that the spec
names `InsufficientDataError`), carrying the needed and actual counts. -/
inductive BacktestError where
  | insufficientData (needed got : ℕ)
deriving DecidableEq, Repr

/-- Timestamp of `candles[n]`, empty when out of range.  (Python raises
`IndexError` out of range, and wraps around for `-1`; under the loop guard
of `create_sliding_windows` every access with a positive window size is in
range, so the total default is never observable there.) -/
def tsAt (candles : List Candle) (n : ℕ) : String :=
  ((candles.get? n).map Candle.timestamp).getD ""

/-- The fold dict appended for one window position, from the body of the
`while` loop of `create_sliding_windows` (engine.py:86-102). -/
def mkWindow (candles : List Candle) (tc vc fid start : ℕ) : Window :=
  let train_end := start + tc
  let test_end := train_end + vc
  { fold_id := fid
    train_start_idx := start
    train_end_idx := train_end
    test_start_idx := train_end
    test_end_idx := min test_end candles.length
    train_candles := (candles.drop start).take tc
    test_candles := (candles.drop train_end).take vc
    train_period_start := tsAt candles start
    train_period_end := tsAt candles (train_end - 1)
    test_period_start := tsAt candles train_end
    test_period_end := tsAt candles (min test_end candles.length - 1) }

/-- Fuel-indexed unfolding of the `while start + total_needed <= len(candles)`
loop of `create_sliding_windows`.  `fid` is `len(windows)` at append time.
With a positive stride, fuel `candles.length + 1` is always sufficient (a
zero stride makes the Python loop diverge). -/
def windowsLoop (candles : List Candle) (tc vc stride : ℕ) :
    ℕ → ℕ → ℕ → List Window
  | 0, _, _ => []
  | fuel + 1, start, fid =>
    if start + (tc + vc) ≤ candles.length then
      mkWindow candles tc vc fid start ::
        windowsLoop candles tc vc stride fuel (start + stride) (fid + 1)
    else []

/-- `create_sliding_windows` (engine.py:54-106): train/test splits by a
sliding window, or the insufficient-data error when even one fold does not
fit. -/
def create_sliding_windows (candles : List Candle)
    (train_days test_days stride_hours : ℕ) : Except BacktestError (List Window) :=
  let train_candles := train_days * 24
  let test_candles := test_days * 24
  let total_needed := train_candles + test_candles
  if candles.length < total_needed then
    .error (.insufficientData total_needed candles.length)
  else
    .ok (windowsLoop candles train_candles test_candles stride_hours
      (candles.length + 1) 0 0)

/-- The RSI block of the `rule_based_strategy` loop body (engine.py:231-247):
working state is (action, size, confidence, has_position). -/
def rsiBlock (has : Bool) (rsi : Option ℚ) : String × ℚ × ℚ × Bool :=
  match rsi with
  | some r =>
    if 70 < r ∧ has then ("INCREASE_SHORT", 5, 0.7, has)
    else if 65 < r ∧ ¬has then ("SHORT", 10, 0.6, true)
    else if r < 30 ∧ has then ("CLOSE", 0, 0.65, false)
    else ("HOLD", 0, 0.3, has)
  | none => ("HOLD", 0, 0.3, has)

/-- The Bollinger block of the loop body (engine.py:249-260), entered only
while the action is still HOLD. -/
def bbBlock (st : String × ℚ × ℚ × Bool) (bb : Option ℚ) : String × ℚ × ℚ × Bool :=
  if st.1 = "HOLD" then
    match bb with
    | some b =>
      if 0.85 < b ∧ ¬st.2.2.2 then ("SHORT", 8, 0.55, true)
      else if b < 0.15 ∧ st.2.2.2 then ("CLOSE", st.2.1, 0.55, false)
      else st
    | none => st
  else st

/-- The MACD block of the loop body (engine.py:262-268), entered only while
the action is still HOLD and no position is held. -/
def macdBlock (st : String × ℚ × ℚ × Bool) (macd : Option ℚ) : String × ℚ × ℚ × Bool :=
  if st.1 = "HOLD" ∧ ¬st.2.2.2 then
    match macd with
    | some m => if m < -50 then ("SHORT", 8, 0.5, true) else st
    | none => st
  else st

/-- One iteration of the decision loop of `rule_based_strategy`
(engine.py:221-276): the running `has_position` flag and the candle produce
a decision and the updated flag, through the three indicator blocks. -/
def ruleStep (has : Bool) (i : ℕ) (c : Candle) : Decision × Bool :=
  let st := macdBlock (bbBlock (rsiBlock has c.rsi_14) c.bb_position) c.macd_histogram
  (⟨some (i : ℤ), none, some st.1, some st.2.1, some st.2.2.1⟩, st.2.2.2)

/-- The decision loop of `rule_based_strategy` over enumerated candles,
threading the `has_position` flag. -/
def ruleAux (has : Bool) : List (ℕ × Candle) → List Decision
  | [] => []
  | ic :: rest =>
    let st := ruleStep has ic.1 ic.2
    st.1 :: ruleAux st.2 rest

/-- `rule_based_strategy` (engine.py:205-278): the deterministic bearish
rule oracle, one decision per test candle. -/
def rule_based_strategy (test_candles : List Candle) : List Decision :=
  ruleAux false test_candles.enum

/-- Test of an optional indicator being present and above a threshold. -/
def optGtB (x : Option ℚ) (t : ℚ) : Bool :=
  match x with
  | some v => t < v
  | none => false

/-- Test of an optional indicator being present and below a threshold. -/
def optLtB (x : Option ℚ) (t : ℚ) : Bool :=
  match x with
  | some v => v < t
  | none => false

/-- A decision of the rule oracle in the shape it always emits. -/
def mkRuleDecision (i : ℕ) (a : String) (size conf : ℚ) : Decision :=
  ⟨some (i : ℤ), none, some a, some size, some conf⟩

/-- Modelled from the spec: one step of the rule oracle as the strict
seven-rule priority ladder of spec §4.2 (RSI rules, then Bollinger rules,
then the MACD rule, else HOLD; a missing indicator skips its rules). -/
def specRuleStep (has : Bool) (i : ℕ) (c : Candle) : Decision × Bool :=
  if optGtB c.rsi_14 70 && has then (mkRuleDecision i "INCREASE_SHORT" 5 0.7, has)
  else if optGtB c.rsi_14 65 && !has then (mkRuleDecision i "SHORT" 10 0.6, true)
  else if optLtB c.rsi_14 30 && has then (mkRuleDecision i "CLOSE" 0 0.65, false)
  else if optGtB c.bb_position 0.85 && !has then (mkRuleDecision i "SHORT" 8 0.55, true)
  else if optLtB c.bb_position 0.15 && has then (mkRuleDecision i "CLOSE" 0 0.55, false)
  else if optLtB c.macd_histogram (-50) && !has then (mkRuleDecision i "SHORT" 8 0.5, true)
  else (mkRuleDecision i "HOLD" 0 0.3, has)

/-- The spec-ladder oracle run over enumerated candles. -/
def specRuleAux (has : Bool) : List (ℕ × Candle) → List Decision
  | [] => []
  | ic :: rest =>
    let st := specRuleStep has ic.1 ic.2
    st.1 :: specRuleAux st.2 rest

/-- Modelled from the spec: the whole rule-based oracle as spec §4.2
describes it (`has_position` reset to false at window start). -/
def specDecisionOracle (test_candles : List Candle) : List Decision :=
  specRuleAux false test_candles.enum

/-- The key under which `simulate_pnl` files decision number `pos` of the
incoming list: `d.get("candle_index", d.get("candle_idx", i))`
(engine.py:363). -/
def decisionKey (pos : ℕ) (d : Decision) : ℤ :=
  d.candle_index.getD (d.candle_idx.getD (pos : ℤ))

/-- The `decision_map` dict comprehension of engine.py:363 as a lookup
function: decisions are inserted in list order, a later insert with the same
key overwriting the earlier one. -/
def buildDecisionMap (decisions : List Decision) : ℤ → Option Decision :=
  decisions.enum.foldl
    (fun m pd k => if k = decisionKey pd.1 pd.2 then some pd.2 else m k)
    (fun _ => none)

/-- The last decision of the list whose key is `k` — the reference reading
of Python dict-comprehension overwrite semantics. -/
def lastKeyedDecision (decisions : List Decision) (k : ℤ) : Option Decision :=
  ((decisions.enum.filter fun pd => decisionKey pd.1 pd.2 == k).map Prod.snd).getLast?

/-- The default decision of engine.py:370 for a candle index that is absent
from the decision map: `{"action": "HOLD", "position_size_pct": 0}`. -/
def holdDefault : Decision :=
  { action := some "HOLD", position_size_pct := some 0 }

/-- The mutable locals of the candle loop of `simulate_pnl`
(engine.py:356-361). -/
structure SimState where
  equity : ℚ
  position_size_usd : ℚ
  entry_price : ℚ
  total_realized_pnl : ℚ
  trades : List Trade
  equity_curve : List EquityPoint
deriving DecidableEq, Repr

/-- The synthetic pre-fold equity point of engine.py:361. -/
def startPoint : EquityPoint :=
  { candle_idx := -1, equity := 1, timestamp := "start" }

/-- The state at the top of the candle loop: equity 1.0 BTC, flat, empty
trade log, the synthetic pre-fold curve point already appended. -/
def initSimState : SimState :=
  { equity := 1
    position_size_usd := 0
    entry_price := 0
    total_realized_pnl := 0
    trades := []
    equity_curve := [startPoint] }

/-- Unrealized PnL of the open position at `price`, inverse-contract
convention, guarded exactly as engine.py:375-380 (`position != 0 and
entry_price > 0`). -/
def unrealizedPnl (s : SimState) (price : ℚ) : ℚ :=
  if s.position_size_usd ≠ 0 ∧ 0 < s.entry_price then
    let u := |s.position_size_usd| * (1 / s.entry_price - 1 / price)
    if s.position_size_usd < 0 then -u else u
  else 0

/-- Realized PnL of closing the whole position at `price`
(engine.py:415-417 and 460-462): unguarded, Python would divide by zero
when `entry_price = 0`. -/
def closePnl (s : SimState) (price : ℚ) : ℚ :=
  let p := |s.position_size_usd| * (1 / s.entry_price - 1 / price)
  if s.position_size_usd < 0 then -p else p

/-- The action dispatch of the candle loop of `simulate_pnl`
(engine.py:382-445), translated branch for branch; an action string that
matches no branch (including HOLD) leaves the state unchanged. -/
def applyAction (s : SimState) (i : ℕ) (c : Candle) (price : ℚ)
    (action : String) (size_pct : ℚ) : SimState :=
  if action = "SHORT" ∧ s.position_size_usd = 0 then
    let notional := s.equity * price * (size_pct / 100)
    { s with
      position_size_usd := -notional
      entry_price := price
      trades := s.trades ++
        [{ candle_idx := (i : ℤ), action := "SHORT", price := price,
           size_usd := some notional, timestamp := some c.timestamp }] }
  else if action = "INCREASE_SHORT" ∧ s.position_size_usd ≤ 0 then
    let notional := s.equity * price * (size_pct / 100)
    let entry' :=
      if s.position_size_usd = 0 then price
      else (|s.position_size_usd| * s.entry_price + notional * price) /
        (|s.position_size_usd| + notional)
    { s with
      entry_price := entry'
      position_size_usd := s.position_size_usd - notional
      trades := s.trades ++
        [{ candle_idx := (i : ℤ), action := "INCREASE_SHORT", price := price,
           size_usd := some notional, timestamp := some c.timestamp }] }
  else if action = "CLOSE" ∧ s.position_size_usd ≠ 0 then
    let pnl := closePnl s price
    { s with
      total_realized_pnl := s.total_realized_pnl + pnl
      equity := s.equity + pnl
      trades := s.trades ++
        [{ candle_idx := (i : ℤ), action := "CLOSE", price := price,
           pnl_btc := some pnl, timestamp := some c.timestamp }]
      position_size_usd := 0
      entry_price := 0 }
  else if action = "REDUCE" ∧ s.position_size_usd ≠ 0 then
    let half := s.position_size_usd / 2
    let p := |half| * (1 / s.entry_price - 1 / price)
    let pnl := if s.position_size_usd < 0 then -p else p
    { s with
      total_realized_pnl := s.total_realized_pnl + pnl
      equity := s.equity + pnl
      position_size_usd := s.position_size_usd - half
      trades := s.trades ++
        [{ candle_idx := (i : ℤ), action := "REDUCE", price := price,
           pnl_btc := some pnl, timestamp := some c.timestamp }] }
  else s

/-- One full iteration of the candle loop of `simulate_pnl`
(engine.py:365-455): skip a falsy close, look the decision up, take the
pre-action unrealized PnL, dispatch the action, and append the equity-curve
point `equity + unrealized_pnl`. -/
def stepCandle (dm : ℤ → Option Decision) (s : SimState) (ic : ℕ × Candle) :
    SimState :=
  match ic.2.close with
  | none => s
  | some price =>
    if price = 0 then s
    else
      let decision := (dm (ic.1 : ℤ)).getD holdDefault
      let action := decision.action.getD "HOLD"
      let size_pct := decision.position_size_pct.getD 0
      let u := unrealizedPnl s price
      let s' := applyAction s ic.1 ic.2 price action size_pct
      { s' with
        equity_curve := s'.equity_curve ++
          [{ candle_idx := (ic.1 : ℤ), equity := s'.equity + u,
             timestamp := ic.2.timestamp, price := some price,
             action := some action }] }

/-- The whole candle loop of `simulate_pnl`. -/
def simLoop (dm : ℤ → Option Decision) (test_candles : List Candle) : SimState :=
  test_candles.enum.foldl (stepCandle dm) initSimState

/-- Fold-end cleanup of `simulate_pnl` (engine.py:457-470): force-close a
still-open position at the last candle's close (Python reads the close
unguarded; a missing close there would raise, modelled by the total default
and by hypotheses where claims touch this site). -/
def finalizeState (s : SimState) (test_candles : List Candle) : SimState :=
  match test_candles.getLast? with
  | none => s
  | some lastc =>
    if s.position_size_usd ≠ 0 then
      let final_price := lastc.close.getD 0
      let pnl := closePnl s final_price
      { s with
        total_realized_pnl := s.total_realized_pnl + pnl
        equity := s.equity + pnl
        trades := s.trades ++
          [{ candle_idx := (test_candles.length : ℤ) - 1, action := "FINAL_CLOSE",
             price := final_price, pnl_btc := some pnl }] }
    else s

/-- The dict returned by `simulate_pnl` (engine.py:478-496). -/
structure PnlResult where
  starting_equity : ℚ
  final_equity : ℚ
  total_realized_pnl : ℚ
  agent_return_pct : ℚ
  btc_return_pct : ℚ
  alpha_pct : ℚ
  num_trades : ℕ
  trades : List Trade
  equity_curve : List EquityPoint
  test_period_start : String
  test_period_end : String
  price_start : Option ℚ
  price_end : Option ℚ
deriving DecidableEq, Repr

/-- Python truthiness of an optional numeric field. -/
def truthyQ : Option ℚ → Bool
  | none => false
  | some p => p != 0

/-- `simulate_pnl` with the decision map already built: the candle loop,
the final force-close, and the metrics block (engine.py:472-496). -/
def simulateWithMap (dm : ℤ → Option Decision) (test_candles : List Candle) :
    PnlResult :=
  let s := finalizeState (simLoop dm test_candles) test_candles
  let start_price : Option ℚ :=
    match test_candles.head? with
    | some c => c.close
    | none => some 0
  let end_price : Option ℚ :=
    match test_candles.getLast? with
    | some c => c.close
    | none => some 0
  let btc_return : ℚ :=
    if truthyQ start_price then (end_price.getD 0 / start_price.getD 0 - 1) * 100
    else 0
  let agent_return : ℚ := (s.equity - 1) * 100
  { starting_equity := 1
    final_equity := s.equity
    total_realized_pnl := s.total_realized_pnl
    agent_return_pct := pyround agent_return 4
    btc_return_pct := pyround btc_return 4
    alpha_pct := pyround (agent_return - btc_return) 4
    num_trades := s.trades.length
    trades := s.trades
    equity_curve := s.equity_curve
    test_period_start := ((test_candles.head?).map Candle.timestamp).getD ""
    test_period_end := ((test_candles.getLast?).map Candle.timestamp).getD ""
    price_start := start_price
    price_end := end_price }

/-- `simulate_pnl` (engine.py:343-496): simulate one fold's trading PnL
from the decisions and the test candles. -/
def simulate_pnl (decisions : List Decision) (test_candles : List Candle) :
    PnlResult :=
  simulateWithMap (buildDecisionMap decisions) test_candles

/-- The cross-fold summary dict built by `run_backtest`
(engine.py:563-585). -/
structure AggregateResult where
  total_folds : ℕ
  winning_folds : ℕ
  win_rate_pct : ℚ
  alpha_positive_folds : ℕ
  alpha_positive_rate_pct : ℚ
  avg_agent_return_pct : ℚ
  avg_btc_return_pct : ℚ
  avg_alpha_pct : ℚ
  max_agent_return_pct : ℚ
  min_agent_return_pct : ℚ
  avg_trades_per_fold : ℚ
  total_trades : ℕ
deriving DecidableEq, Repr

/-- Python `max` of a list of rationals (never applied to an empty list by
the guarded aggregation; the empty default is arbitrary). -/
def listMax : List ℚ → ℚ
  | [] => 0
  | h :: t => t.foldl max h

/-- Python `min` of a list of rationals, as `listMax`. -/
def listMin : List ℚ → ℚ
  | [] => 0
  | h :: t => t.foldl min h

/-- The aggregation block of `run_backtest` (engine.py:563-585), as a
function of the per-fold PnL results. -/
def aggregateResults (results : List PnlResult) : AggregateResult :=
  let agent_returns := results.map PnlResult.agent_return_pct
  let btc_returns := results.map PnlResult.btc_return_pct
  let alphas := results.map PnlResult.alpha_pct
  let trade_counts := results.map PnlResult.num_trades
  let winning_folds := agent_returns.countP fun a => decide (0 < a)
  let alpha_positive_folds := alphas.countP fun a => decide (0 < a)
  { total_folds := results.length
    winning_folds := winning_folds
    win_rate_pct :=
      if results.isEmpty then 0
      else pyround ((winning_folds : ℚ) / (results.length : ℚ) * 100) 1
    alpha_positive_folds := alpha_positive_folds
    alpha_positive_rate_pct :=
      if results.isEmpty then 0
      else pyround ((alpha_positive_folds : ℚ) / (results.length : ℚ) * 100) 1
    avg_agent_return_pct :=
      if agent_returns.isEmpty then 0
      else pyround (agent_returns.sum / (agent_returns.length : ℚ)) 4
    avg_btc_return_pct :=
      if btc_returns.isEmpty then 0
      else pyround (btc_returns.sum / (btc_returns.length : ℚ)) 4
    avg_alpha_pct :=
      if alphas.isEmpty then 0
      else pyround (alphas.sum / (alphas.length : ℚ)) 4
    max_agent_return_pct :=
      if agent_returns.isEmpty then 0 else pyround (listMax agent_returns) 4
    min_agent_return_pct :=
      if agent_returns.isEmpty then 0 else pyround (listMin agent_returns) 4
    avg_trades_per_fold :=
      if trade_counts.isEmpty then 0
      else pyround ((trade_counts.sum : ℚ) / (trade_counts.length : ℚ)) 1
    total_trades := trade_counts.sum }

/-- The per-state safety invariant of the PnL state machine: an open
position has a positive entry price. -/
def posInv (s : SimState) : Prop :=
  s.position_size_usd ≠ 0 → 0 < s.entry_price

/-- A candle's close is either absent, the skipped falsy 0, or positive. -/
def closeOk (c : Candle) : Bool :=
  match c.close with
  | none => true
  | some p => decide (p = 0 ∨ 0 < p)

/-- Every present, truthy close of the list is positive ("processed closes
are positive"). -/
def posCloses (test_candles : List Candle) : Bool :=
  test_candles.all closeOk

/-- Local condition under which one loop iteration preserves `posInv`: an
INCREASE_SHORT applied to an open short must carry a nonnegative notional. -/
def stepSafe (dm : ℤ → Option Decision) (s : SimState) (ic : ℕ × Candle) : Bool :=
  match ic.2.close with
  | none => true
  | some price =>
    if price = 0 then true
    else
      let decision := (dm (ic.1 : ℤ)).getD holdDefault
      let action := decision.action.getD "HOLD"
      let size_pct := decision.position_size_pct.getD 0
      if action == "INCREASE_SHORT" && decide (s.position_size_usd < 0) then
        decide (0 ≤ s.equity * price * (size_pct / 100))
      else true

/-- `stepSafe` holds at every iteration of the run starting from `s`. -/
def runSafe (dm : ℤ → Option Decision) : SimState → List (ℕ × Candle) → Bool
  | _, [] => true
  | s, ic :: rest => stepSafe dm s ic && runSafe dm (stepCandle dm s ic) rest

/-- The loop state after the first `n` iterations of the candle loop of
`simulate_pnl`. -/
def stateAfter (decisions : List Decision) (test_candles : List Candle) (n : ℕ) :
    SimState :=
  (test_candles.enum.take n).foldl (stepCandle (buildDecisionMap decisions))
    initSimState

/- Concrete instances used by the worked scenario, the counterexamples and
the witnesses. -/

/-- The three test candles of the spec's worked scenario, closes 100, 90, 80. -/
def scenarioCandles : List Candle :=
  [{ timestamp := "t0", close := some 100 },
   { timestamp := "t1", close := some 90 },
   { timestamp := "t2", close := some 80 }]

/-- The decision sequence of the worked scenario:
SHORT 10% at 0, HOLD at 1, CLOSE at 2. -/
def scenarioDecisions : List Decision :=
  [{ candle_index := some 0, action := some "SHORT", position_size_pct := some 10 },
   { candle_index := some 1, action := some "HOLD", position_size_pct := some 0 },
   { candle_index := some 2, action := some "CLOSE", position_size_pct := some 0 }]

/-- Two candles whose closes make the unrounded agent and BTC returns
0.00046 and -0.00046: both round (half-even) away from zero, while their
difference 0.00092 rounds down, separating `alpha_pct` from the difference
of the returned rounded fields. -/
def roundingGapCandles : List Candle :=
  [{ timestamp := "s0", close := some 1000000 },
   { timestamp := "s1", close := some (9999954 / 10) }]

/-- Open a short sized 99.99954% at candle 0 and close it at candle 1. -/
def roundingGapDecisions : List Decision :=
  [{ candle_index := some 0, action := some "SHORT",
     position_size_pct := some (9999954 / 100000) },
   { candle_index := some 1, action := some "CLOSE" }]

/-- Candles for breaking the entry-price invariant: closes 100 then 50,
both positive. -/
def invBreakCandles : List Candle :=
  [{ timestamp := "u0", close := some 100 },
   { timestamp := "u1", close := some 50 }]

/-- A short of notional 10 at price 100, then an INCREASE_SHORT with
position_size_pct -40 at price 50: its notional is -20, the weighted
average entry price becomes (10*100 + (-20)*50) / (10 + (-20)) = 0 while
the position jumps to +10. -/
def invBreakDecisions : List Decision :=
  [{ candle_index := some 0, action := some "SHORT", position_size_pct := some 10 },
   { candle_index := some 1, action := some "INCREASE_SHORT",
     position_size_pct := some (-40) }]

/-- Two candles, closes 100 and 80, used with a single SHORT decision to
leave a position open at fold end. -/
def openEndCandles : List Candle :=
  [{ timestamp := "v0", close := some 100 },
   { timestamp := "v1", close := some 80 }]

/-- One SHORT decision at candle 0 and nothing afterwards. -/
def openEndDecisions : List Decision :=
  [{ candle_index := some 0, action := some "SHORT", position_size_pct := some 10 }]

/-- Three candles whose middle close is the falsy 0: the candle loop skips
it, so it contributes no equity-curve point. -/
def falsyCloseCandles : List Candle :=
  [{ timestamp := "w0", close := some 100 },
   { timestamp := "w1", close := some 0 },
   { timestamp := "w2", close := some 80 }]

/-- Seventy-two identical hourly candles, enough for two folds of one train
day and one test day at stride 24. -/
def gridCandles : List Candle :=
  List.replicate 72 { timestamp := "g", close := some 100 }

/-- A first concrete per-fold result for the aggregation witness. -/
def foldResultA : PnlResult :=
  { starting_equity := 1, final_equity := 1.01, total_realized_pnl := 0.01,
    agent_return_pct := 1, btc_return_pct := -2, alpha_pct := 3,
    num_trades := 2, trades := [], equity_curve := [],
    test_period_start := "", test_period_end := "",
    price_start := some 100, price_end := some 98 }

/-- A second concrete per-fold result for the aggregation witness. -/
def foldResultB : PnlResult :=
  { starting_equity := 1, final_equity := 0.99, total_realized_pnl := -0.01,
    agent_return_pct := -1, btc_return_pct := 4, alpha_pct := -5,
    num_trades := 3, trades := [], equity_curve := [],
    test_period_start := "", test_period_end := "",
    price_start := some 50, price_end := some 52 }

/-- Two decisions whose keys both resolve to candle 0: the first by its
`candle_index` field, the second by its `candle_idx` fallback. -/
def duplicateKeyDecisions : List Decision :=
  [{ candle_index := some 0, action := some "SHORT", position_size_pct := some 10 },
   { candle_idx := some 0, action := some "HOLD", position_size_pct := some 0 }]

/- Helper lemmas. -/

theorem ratFloor_le (x : ℚ) : (Rat.floor x : ℚ) ≤ x := by
  rw [show Rat.floor x = ⌊x⌋ from rfl]; exact Int.floor_le x

theorem lt_ratFloor_add_one (x : ℚ) : x < Rat.floor x + 1 := by
  rw [show Rat.floor x = ⌊x⌋ from rfl]; exact_mod_cast Int.lt_floor_add_one x

theorem rhalfeven_dist (x : ℚ) : |(rhalfeven x : ℚ) - x| ≤ 1 / 2 := by
  have h1 : (Rat.floor x : ℚ) ≤ x := ratFloor_le x
  have h2 : x < Rat.floor x + 1 := lt_ratFloor_add_one x
  unfold rhalfeven
  split_ifs with ha hb hc <;>
    · rw [abs_le]; constructor <;> push_cast <;> linarith

theorem pyround4_sub (a b : ℚ) :
    |pyround (a - b) 4 - (pyround a 4 - pyround b 4)| ≤ 1 / 10000 := by
  have hp : pow10 4 = 10000 := by norm_num [pow10]
  have h1 := rhalfeven_dist (a * pow10 4 - b * pow10 4)
  have h2 := rhalfeven_dist (a * pow10 4)
  have h3 := rhalfeven_dist (b * pow10 4)
  set d : ℤ := rhalfeven (a * pow10 4 - b * pow10 4) - rhalfeven (a * pow10 4)
    + rhalfeven (b * pow10 4) with hd
  set X : ℚ := (rhalfeven (a * pow10 4 - b * pow10 4) : ℚ) - (a * pow10 4 - b * pow10 4)
    with hX
  set Y : ℚ := (rhalfeven (a * pow10 4) : ℚ) - a * pow10 4 with hY
  set Z : ℚ := (rhalfeven (b * pow10 4) : ℚ) - b * pow10 4 with hZ
  have habs : |(d : ℚ)| ≤ 3 / 2 := by
    have hexp : (d : ℚ) = X - Y + Z := by rw [hX, hY, hZ]; push_cast [hd]; ring
    have t1 : |X - Y + Z| ≤ |X - Y| + |Z| := abs_add _ _
    have t2 : |X - Y| ≤ |X| + |Y| := abs_sub _ _
    rw [hexp]
    linarith
  have habs2 : ((|d| : ℤ) : ℚ) ≤ 3 / 2 := by rw [Int.cast_abs]; exact habs
  have hd1 : (|d| : ℤ) ≤ 1 := by
    by_contra hc
    push_neg at hc
    have h2le : (2 : ℤ) ≤ |d| := hc
    have h2leq : ((2 : ℤ) : ℚ) ≤ ((|d| : ℤ) : ℚ) := Int.cast_le.mpr h2le
    norm_num at h2leq
    linarith
  have hint : |(d : ℚ)| ≤ 1 := by
    rw [← Int.cast_abs]
    exact_mod_cast hd1
  have hrw : pyround (a - b) 4 - (pyround a 4 - pyround b 4) = (d : ℚ) / pow10 4 := by
    simp only [pyround]
    rw [show (a - b) * pow10 4 = a * pow10 4 - b * pow10 4 by ring]
    push_cast [hd]; ring
  rw [hrw, abs_div, hp, abs_of_pos (by norm_num : (0 : ℚ) < 10000)]
  gcongr

/- Claim theorems. -/

/-- C1: worked scenario of the PnL simulator.  On the three test candles
with closes 100, 90, 80 and the decisions SHORT 10% at 0, HOLD at 1, CLOSE
at 2, starting equity 1.0, `simulate_pnl` opens a short of notional 10 USD
at entry price 100 and returns final_equity 1.025, agent_return_pct 2.5,
btc_return_pct -20.0 and alpha_pct 22.5. -/
theorem worked_scenario_pnl :
    (simulate_pnl scenarioDecisions scenarioCandles).final_equity = 1.025 ∧
    (simulate_pnl scenarioDecisions scenarioCandles).agent_return_pct = 2.5 ∧
    (simulate_pnl scenarioDecisions scenarioCandles).btc_return_pct = -20 ∧
    (simulate_pnl scenarioDecisions scenarioCandles).alpha_pct = 22.5 ∧
    (simulate_pnl scenarioDecisions scenarioCandles).trades.head? =
      some { candle_idx := 0, action := "SHORT", price := 100,
             size_usd := some 10, timestamp := some "t0" } := by
  with_unfolding_all decide

/-- C2, counterexample: `simulate_pnl` rounds `alpha` from the unrounded
difference, so the exact equation between the three returned rounded fields
fails when the two returns round away from each other.  On closes
[1000000, 999995.4] with a 99.99954% short closed at candle 1, the returned
fields are alpha_pct 0.0009 but agent_return_pct 0.0005 and btc_return_pct
-0.0005. -/
theorem alpha_pct_exact_equality_counterexample :
    roundingGapCandles ≠ [] ∧
    (simulate_pnl roundingGapDecisions roundingGapCandles).alpha_pct ≠
      (simulate_pnl roundingGapDecisions roundingGapCandles).agent_return_pct -
        (simulate_pnl roundingGapDecisions roundingGapCandles).btc_return_pct := by
  with_unfolding_all decide

/-- C2 (amended): `alpha_pct` is the 4-decimal rounding of the exact
difference of the unrounded returns, so for every decision list and
non-empty test-candle list it differs from the arithmetic difference of the
returned (independently rounded) `agent_return_pct` and `btc_return_pct`
fields by at most one rounding unit, 10^-4; the exact equation between the
three returned fields does not hold in general. -/
theorem alpha_pct_within_one_round_of_difference (decisions : List Decision)
    (test_candles : List Candle) (h : test_candles ≠ []) :
    |(simulate_pnl decisions test_candles).alpha_pct -
      ((simulate_pnl decisions test_candles).agent_return_pct -
        (simulate_pnl decisions test_candles).btc_return_pct)| ≤ 1 / 10000 :=
  pyround4_sub _ _

theorem alpha_pct_within_one_round_witness :
    scenarioCandles ≠ [] ∧
    |(simulate_pnl scenarioDecisions scenarioCandles).alpha_pct -
      ((simulate_pnl scenarioDecisions scenarioCandles).agent_return_pct -
        (simulate_pnl scenarioDecisions scenarioCandles).btc_return_pct)| ≤ 1 / 10000 :=
  ⟨by with_unfolding_all decide,
    alpha_pct_within_one_round_of_difference scenarioDecisions scenarioCandles
      (by with_unfolding_all decide)⟩

/-- C3: whenever `len(candles) < (train_days + test_days) * 24`, the fold
generator fails with the insufficient-data error and emits no fold set. -/
theorem generate_folds_insufficient_data (candles : List Candle)
    (train_days test_days stride_hours : ℕ)
    (h : candles.length < (train_days + test_days) * 24) :
    create_sliding_windows candles train_days test_days stride_hours =
      .error (.insufficientData ((train_days + test_days) * 24) candles.length) := by
  simp only [create_sliding_windows]
  rw [Nat.add_mul] at h ⊢
  rw [if_pos h]

theorem generate_folds_insufficient_data_witness :
    ([] : List Candle).length < (1 + 0) * 24 ∧
    create_sliding_windows [] 1 0 48 =
      .error (.insufficientData ((1 + 0) * 24) ([] : List Candle).length) :=
  ⟨by decide, generate_folds_insufficient_data [] 1 0 48 (by decide)⟩

theorem finalizeState_open (s : SimState) (cs : List Candle) (h : cs ≠ [])
    (h2 : s.position_size_usd ≠ 0) :
    finalizeState s cs =
      { s with
        total_realized_pnl :=
          s.total_realized_pnl + closePnl s ((cs.getLast h).close.getD 0)
        equity := s.equity + closePnl s ((cs.getLast h).close.getD 0)
        trades := s.trades ++
          [{ candle_idx := (cs.length : ℤ) - 1, action := "FINAL_CLOSE",
             price := (cs.getLast h).close.getD 0,
             pnl_btc := some (closePnl s ((cs.getLast h).close.getD 0)) }] } := by
  simp only [finalizeState, List.getLast?_eq_getLast cs h, if_pos h2]

/-- C6: if a position is still open after the last test candle, the
simulator realizes its PnL at that candle's close and appends a trade
tagged FINAL_CLOSE before the final metrics are computed: the returned
final equity and total realized PnL already contain the forced close, so
the fold's accounting ends flat. -/
theorem final_close_flattens (decisions : List Decision)
    (test_candles : List Candle) (h : test_candles ≠ [])
    (h2 : (simLoop (buildDecisionMap decisions) test_candles).position_size_usd ≠ 0) :
    (simulate_pnl decisions test_candles).trades =
      (simLoop (buildDecisionMap decisions) test_candles).trades ++
        [{ candle_idx := (test_candles.length : ℤ) - 1, action := "FINAL_CLOSE",
           price := (test_candles.getLast h).close.getD 0,
           pnl_btc := some (closePnl (simLoop (buildDecisionMap decisions) test_candles)
             ((test_candles.getLast h).close.getD 0)) }] ∧
    (simulate_pnl decisions test_candles).final_equity =
      (simLoop (buildDecisionMap decisions) test_candles).equity +
        closePnl (simLoop (buildDecisionMap decisions) test_candles)
          ((test_candles.getLast h).close.getD 0) ∧
    (simulate_pnl decisions test_candles).total_realized_pnl =
      (simLoop (buildDecisionMap decisions) test_candles).total_realized_pnl +
        closePnl (simLoop (buildDecisionMap decisions) test_candles)
          ((test_candles.getLast h).close.getD 0) := by
  simp only [simulate_pnl, simulateWithMap]
  rw [finalizeState_open _ _ h h2]
  exact ⟨rfl, rfl, rfl⟩

theorem final_close_flattens_witness :
    (openEndCandles ≠ [] ∧
      (simLoop (buildDecisionMap openEndDecisions) openEndCandles).position_size_usd ≠ 0) ∧
    (simulate_pnl openEndDecisions openEndCandles).trades =
      (simLoop (buildDecisionMap openEndDecisions) openEndCandles).trades ++
        [{ candle_idx := (openEndCandles.length : ℤ) - 1, action := "FINAL_CLOSE",
           price := (openEndCandles.getLast (by with_unfolding_all decide)).close.getD 0,
           pnl_btc := some (closePnl (simLoop (buildDecisionMap openEndDecisions) openEndCandles)
             ((openEndCandles.getLast (by with_unfolding_all decide)).close.getD 0)) }] ∧
    (simulate_pnl openEndDecisions openEndCandles).final_equity =
      (simLoop (buildDecisionMap openEndDecisions) openEndCandles).equity +
        closePnl (simLoop (buildDecisionMap openEndDecisions) openEndCandles)
          ((openEndCandles.getLast (by with_unfolding_all decide)).close.getD 0) := by
  refine ⟨⟨by with_unfolding_all decide, by with_unfolding_all decide⟩, ?_⟩
  have hmain := final_close_flattens openEndDecisions openEndCandles
    (by with_unfolding_all decide) (by with_unfolding_all decide)
  exact ⟨hmain.1, hmain.2.1⟩

theorem foldl_overwrite_find (l : List (ℕ × Decision)) :
    ∀ (m : ℤ → Option Decision) (k : ℤ),
    (l.foldl (fun m pd k => if k = decisionKey pd.1 pd.2 then some pd.2 else m k) m) k =
      match l.reverse.find? (fun pd => decisionKey pd.1 pd.2 == k) with
      | some pd => some pd.2
      | none => m k := by
  induction l with
  | nil => intro m k; rfl
  | cons pd rest ih =>
    intro m k
    rw [List.foldl_cons, ih, List.reverse_cons, List.find?_append]
    cases hfind : rest.reverse.find? (fun pd => decisionKey pd.1 pd.2 == k) with
    | some q => simp [hfind]
    | none =>
      by_cases hk : k = decisionKey pd.1 pd.2
      · simp [hfind, List.find?, hk]
      · have hbeq : (decisionKey pd.1 pd.2 == k) = false :=
          beq_eq_false_iff_ne.mpr (Ne.symm hk)
        simp [hfind, List.find?, hbeq, hk]

/-- C10: the decision map of `simulate_pnl` keeps, for every candle index,
only the last decision of the incoming list whose key is that index
(earlier duplicates are silently overwritten), where a decision's key is
its `candle_index` field, else its `candle_idx` field, else its position in
the list; the whole simulation only depends on the list through that
last-wins map. -/
theorem last_duplicate_decision_wins :
    (∀ (decisions : List Decision) (k : ℤ),
      buildDecisionMap decisions k = lastKeyedDecision decisions k) ∧
    (∀ (decisions : List Decision) (test_candles : List Candle),
      simulate_pnl decisions test_candles =
        simulateWithMap (lastKeyedDecision decisions) test_candles) ∧
    (∀ (pos : ℕ) (d : Decision), d.candle_index = none →
      decisionKey pos d = d.candle_idx.getD (pos : ℤ)) := by
  have hmap : ∀ (decisions : List Decision) (k : ℤ),
      buildDecisionMap decisions k = lastKeyedDecision decisions k := by
    intro ds k
    unfold buildDecisionMap lastKeyedDecision
    rw [foldl_overwrite_find]
    cases hf : ds.enum.reverse.find? (fun pd => decisionKey pd.1 pd.2 == k) <;>
      simp [hf]
  refine ⟨hmap, ?_, ?_⟩
  · intro ds cs
    unfold simulate_pnl
    congr 1
    funext k
    exact hmap ds k
  · intro pos d hnone
    simp [decisionKey, hnone]

theorem last_duplicate_decision_wins_witness :
    buildDecisionMap duplicateKeyDecisions 0 = lastKeyedDecision duplicateKeyDecisions 0 ∧
    (Decision.mk none (some 0) (some "HOLD") (some 0) none).candle_index = none ∧
    decisionKey 5 (Decision.mk none (some 0) (some "HOLD") (some 0) none) =
      (Decision.mk none (some 0) (some "HOLD") (some 0) none).candle_idx.getD 5 :=
  ⟨last_duplicate_decision_wins.1 duplicateKeyDecisions 0, rfl,
    last_duplicate_decision_wins.2.2 5 (Decision.mk none (some 0) (some "HOLD") (some 0) none) rfl⟩

theorem bbBlock_not_hold (st : String × ℚ × ℚ × Bool) (bb : Option ℚ)
    (h : ¬ st.1 = "HOLD") : bbBlock st bb = st := by
  simp [bbBlock, h]

theorem macdBlock_not_hold (st : String × ℚ × ℚ × Bool) (macd : Option ℚ)
    (h : ¬ st.1 = "HOLD") : macdBlock st macd = st := by
  simp [macdBlock, h]

theorem macdBlock_has (st : String × ℚ × ℚ × Bool) (macd : Option ℚ)
    (h : st.2.2.2 = true) : macdBlock st macd = st := by
  simp [macdBlock, h]

theorem tail_eq (has : Bool) (bb macd : Option ℚ) :
    macdBlock (bbBlock ("HOLD", 0, 0.3, has) bb) macd =
      (if optGtB bb 0.85 && !has then ("SHORT", 8, 0.55, true)
       else if optLtB bb 0.15 && has then ("CLOSE", 0, 0.55, false)
       else if optLtB macd (-50) && !has then ("SHORT", 8, 0.5, true)
       else ("HOLD", 0, 0.3, has)) := by
  cases has <;> rcases bb with _ | b <;> rcases macd with _ | m <;>
    simp [bbBlock, macdBlock, optGtB, optLtB] <;> split_ifs <;>
      first | rfl | tauto

theorem ladder_eq (has : Bool) (rsi bb macd : Option ℚ) :
    macdBlock (bbBlock (rsiBlock has rsi) bb) macd =
      (if optGtB rsi 70 && has then ("INCREASE_SHORT", 5, 0.7, has)
       else if optGtB rsi 65 && !has then ("SHORT", 10, 0.6, true)
       else if optLtB rsi 30 && has then ("CLOSE", 0, 0.65, false)
       else if optGtB bb 0.85 && !has then ("SHORT", 8, 0.55, true)
       else if optLtB bb 0.15 && has then ("CLOSE", 0, 0.55, false)
       else if optLtB macd (-50) && !has then ("SHORT", 8, 0.5, true)
       else ("HOLD", 0, 0.3, has)) := by
  rcases rsi with _ | r
  · rw [show rsiBlock has none = ("HOLD", 0, 0.3, has) from rfl, tail_eq]
    simp [optGtB, optLtB]
  · by_cases h1 : 70 < r <;> by_cases h2 : 65 < r <;> by_cases h3 : r < 30 <;>
      cases has <;>
      first
      | (exfalso; linarith)
      | (simp only [rsiBlock, optGtB, optLtB]
         simp [h1, h2, h3, bbBlock_not_hold, macdBlock_not_hold, macdBlock_has,
           tail_eq, optGtB, optLtB])

theorem ruleStep_eq_specRuleStep (has : Bool) (i : ℕ) (c : Candle) :
    ruleStep has i c = specRuleStep has i c := by
  rcases c with ⟨ts, cl, rsi, macd, bb⟩
  show (let st := macdBlock (bbBlock (rsiBlock has rsi) bb) macd
    ((⟨some (i : ℤ), none, some st.1, some st.2.1, some st.2.2.1⟩, st.2.2.2) :
      Decision × Bool)) = _
  rw [ladder_eq]
  simp only [specRuleStep, mkRuleDecision]
  split_ifs <;> rfl

theorem ruleAux_eq_specRuleAux (l : List (ℕ × Candle)) :
    ∀ has : Bool, ruleAux has l = specRuleAux has l := by
  induction l with
  | nil => intro has; rfl
  | cons ic rest ih =>
    intro has
    show (ruleStep has ic.1 ic.2).1 :: ruleAux (ruleStep has ic.1 ic.2).2 rest =
      (specRuleStep has ic.1 ic.2).1 :: specRuleAux (specRuleStep has ic.1 ic.2).2 rest
    rw [ruleStep_eq_specRuleStep, ih]

theorem ruleAux_length (l : List (ℕ × Candle)) :
    ∀ has : Bool, (ruleAux has l).length = l.length := by
  induction l with
  | nil => intro has; rfl
  | cons ic rest ih =>
    intro has
    show ((ruleStep has ic.1 ic.2).1 :: ruleAux (ruleStep has ic.1 ic.2).2 rest).length =
      rest.length + 1
    rw [List.length_cons, ih]

theorem ruleAux_map_index (l : List (ℕ × Candle)) :
    ∀ has : Bool, (ruleAux has l).map Decision.candle_index =
      l.map (fun p => some (p.1 : ℤ)) := by
  induction l with
  | nil => intro has; rfl
  | cons ic rest ih =>
    intro has
    show ((ruleStep has ic.1 ic.2).1 :: ruleAux (ruleStep has ic.1 ic.2).2 rest).map
        Decision.candle_index = some (ic.1 : ℤ) :: rest.map (fun p => some (p.1 : ℤ))
    rw [List.map_cons, ih]
    rfl

/-- C7: the rule oracle returns exactly one decision per test candle, in
index order (decision k carries candle_index k), computed by the spec's
strict seven-rule priority ladder over the single `has_position` flag
(missing indicators skip their rules); it is a total function, so it never
fails. -/
theorem rule_oracle_matches_spec_ladder (test_candles : List Candle) :
    rule_based_strategy test_candles = specDecisionOracle test_candles ∧
    (rule_based_strategy test_candles).length = test_candles.length ∧
    (rule_based_strategy test_candles).map Decision.candle_index =
      (List.range test_candles.length).map (fun n : ℕ => some (n : ℤ)) := by
  refine ⟨ruleAux_eq_specRuleAux _ _, ?_, ?_⟩
  · rw [rule_based_strategy, ruleAux_length, List.enum_length]
  · rw [rule_based_strategy, ruleAux_map_index]
    have hcomp : test_candles.enum.map (fun p => some (p.1 : ℤ)) =
        (test_candles.enum.map Prod.fst).map (fun n : ℕ => some (n : ℤ)) := by
      rw [List.map_map]; rfl
    rw [hcomp, List.enum_map_fst]

theorem applyAction_posInv (s : SimState) (i : ℕ) (c : Candle) (price : ℚ)
    (action : String) (size_pct : ℚ) (hp : 0 < price) (hinv : posInv s)
    (hsafe : action = "INCREASE_SHORT" → s.position_size_usd < 0 →
      0 ≤ s.equity * price * (size_pct / 100)) :
    posInv (applyAction s i c price action size_pct) := by
  unfold applyAction
  split_ifs with h1 h2 h0 h3 h4 h5
  · intro _
    exact hp
  · intro _
    exact hp
  · have hlt : s.position_size_usd < 0 := lt_of_le_of_ne h2.2 h0
    have hnn : 0 ≤ s.equity * price * (size_pct / 100) := hsafe h2.1 hlt
    have hent : 0 < s.entry_price := hinv h0
    have habs : 0 < |s.position_size_usd| := abs_pos.mpr h0
    intro _
    exact div_pos
      (add_pos_of_pos_of_nonneg (mul_pos habs hent) (mul_nonneg hnn hp.le))
      (add_pos_of_pos_of_nonneg habs hnn)
  · intro hne
    exact absurd rfl hne
  · intro hne
    apply hinv
    intro h0'
    apply hne
    show s.position_size_usd - s.position_size_usd / 2 = 0
    rw [h0']
    norm_num
  · intro hne
    apply hinv
    intro h0'
    apply hne
    show s.position_size_usd - s.position_size_usd / 2 = 0
    rw [h0']
    norm_num
  · exact hinv

theorem stepCandle_some (dm : ℤ → Option Decision) (s : SimState) (i : ℕ)
    (c : Candle) (price : ℚ) (hcl : c.close = some price) (hz : ¬ price = 0) :
    stepCandle dm s (i, c) =
      (let decision := (dm (i : ℤ)).getD holdDefault
       let action := decision.action.getD "HOLD"
       let size_pct := decision.position_size_pct.getD 0
       let u := unrealizedPnl s price
       let s' := applyAction s i c price action size_pct
       { s' with equity_curve := s'.equity_curve ++
         [{ candle_idx := (i : ℤ), equity := s'.equity + u, timestamp := c.timestamp,
            price := some price, action := some action }] }) := by
  simp [stepCandle, hcl, hz]

theorem stepCandle_skip (dm : ℤ → Option Decision) (s : SimState) (i : ℕ)
    (c : Candle) (h : c.close = none ∨ c.close = some 0) :
    stepCandle dm s (i, c) = s := by
  rcases h with h | h <;> simp [stepCandle, h]

theorem stepCandle_posInv (dm : ℤ → Option Decision) (s : SimState)
    (ic : ℕ × Candle) (hok : closeOk ic.2 = true)
    (hsafe : stepSafe dm s ic = true) (hinv : posInv s) :
    posInv (stepCandle dm s ic) := by
  rcases ic with ⟨i, c⟩
  cases hcl : c.close with
  | none =>
    rw [stepCandle_skip dm s i c (Or.inl hcl)]
    exact hinv
  | some price =>
    by_cases hz : price = 0
    · rw [stepCandle_skip dm s i c (Or.inr (hz ▸ hcl))]
      exact hinv
    · have hp : 0 < price := by
        unfold closeOk at hok
        rw [hcl] at hok
        simp only [decide_eq_true_eq] at hok
        rcases hok with h | h
        · exact absurd h hz
        · exact h
      have hsafe' : ((dm (i : ℤ)).getD holdDefault).action.getD "HOLD" =
            "INCREASE_SHORT" →
          s.position_size_usd < 0 →
          0 ≤ s.equity * price *
            (((dm (i : ℤ)).getD holdDefault).position_size_pct.getD 0 / 100) := by
        intro ha hlt
        simp only [stepSafe, hcl] at hsafe
        rw [if_neg hz] at hsafe
        have hcond : ((((dm (i : ℤ)).getD holdDefault).action.getD "HOLD" ==
            "INCREASE_SHORT") && decide (s.position_size_usd < 0)) = true := by
          rw [ha]
          simp [hlt]
        rw [if_pos hcond] at hsafe
        exact of_decide_eq_true hsafe
      rw [stepCandle_some dm s i c price hcl hz]
      intro hne
      exact applyAction_posInv s i c price _ _ hp hinv hsafe' hne

theorem posInv_foldl (dm : ℤ → Option Decision) (l : List (ℕ × Candle)) :
    ∀ (s : SimState), l.all (fun ic => closeOk ic.2) = true →
      runSafe dm s l = true → posInv s →
      ∀ n, posInv ((l.take n).foldl (stepCandle dm) s) := by
  induction l with
  | nil =>
    intro s _ _ hinv n
    simpa using hinv
  | cons ic rest ih =>
    intro s hall hsafe hinv n
    cases n with
    | zero => simpa using hinv
    | succ m =>
      rw [List.take_succ_cons, List.foldl_cons]
      simp only [List.all_cons, Bool.and_eq_true] at hall
      simp only [runSafe, Bool.and_eq_true] at hsafe
      exact ih (stepCandle dm s ic) hall.2 hsafe.2
        (stepCandle_posInv dm s ic hall.1 hsafe.1 hinv) m

theorem enumFrom_all_snd (f : Candle → Bool) :
    ∀ (n : ℕ) (l : List Candle),
      (List.enumFrom n l).all (fun p => f p.2) = l.all f := by
  intro n l
  induction l generalizing n with
  | nil => rfl
  | cons c rest ih =>
    show (f c && (List.enumFrom (n + 1) rest).all (fun p => f p.2)) = (f c && rest.all f)
    rw [ih]

/-- C5, counterexample: with positive processed closes (100 then 50), the
decision list [SHORT 10% @0, INCREASE_SHORT -40% @1] drives the weighted
average entry price to 0 while the position becomes +10: the claimed
invariant "position open implies entry_price > 0" fails after two loop
steps, and the subsequent CLOSE/REDUCE/final-close PnL formulas would
divide by an entry price of zero. -/
theorem entry_price_invariant_counterexample :
    posCloses invBreakCandles = true ∧
    ¬ posInv (stateAfter invBreakDecisions invBreakCandles 2) := by
  constructor
  · with_unfolding_all decide
  · intro hinv
    have h1 : (stateAfter invBreakDecisions invBreakCandles 2).position_size_usd = 10 := by
      with_unfolding_all decide
    have h2 : (stateAfter invBreakDecisions invBreakCandles 2).entry_price = 0 := by
      with_unfolding_all decide
    have := hinv (by rw [h1]; norm_num)
    rw [h2] at this
    exact absurd this (by norm_num)

/-- C5 (amended): the invariant "an open position has a positive entry
price" holds at every step of the candle loop — so every division by
`entry_price` in the unrealized, CLOSE, REDUCE and final-close formulas has
a positive denominator — for every test-candle list whose processed closes
are positive, provided additionally that every INCREASE_SHORT applied while
a short is open computes a nonnegative notional (`runSafe`); with
adversarial decisions (a negative `position_size_pct`, which `simulate_pnl`
never validates) the invariant as originally claimed is violated. -/
theorem entry_price_invariant_of_safe_notionals (decisions : List Decision)
    (test_candles : List Candle) (h1 : posCloses test_candles = true)
    (h2 : runSafe (buildDecisionMap decisions) initSimState test_candles.enum = true) :
    ∀ n, posInv (stateAfter decisions test_candles n) := by
  intro n
  have hall : test_candles.enum.all (fun p => closeOk p.2) = true := by
    rw [show test_candles.enum = List.enumFrom 0 test_candles from rfl,
      enumFrom_all_snd closeOk 0 test_candles]
    exact h1
  exact posInv_foldl (buildDecisionMap decisions) test_candles.enum initSimState
    hall h2 (fun hne => absurd rfl hne) n

theorem entry_price_invariant_witness :
    (posCloses openEndCandles = true ∧
      runSafe (buildDecisionMap openEndDecisions) initSimState openEndCandles.enum = true) ∧
    posInv (stateAfter openEndDecisions openEndCandles 2) :=
  ⟨⟨by with_unfolding_all decide, by with_unfolding_all decide⟩,
    entry_price_invariant_of_safe_notionals openEndDecisions openEndCandles
      (by with_unfolding_all decide) (by with_unfolding_all decide) 2⟩

theorem applyAction_curve (s : SimState) (i : ℕ) (c : Candle) (price : ℚ)
    (action : String) (size_pct : ℚ) :
    (applyAction s i c price action size_pct).equity_curve = s.equity_curve := by
  unfold applyAction
  split_ifs <;> rfl

theorem stepCandle_curve_length (dm : ℤ → Option Decision) (s : SimState)
    (ic : ℕ × Candle) :
    (stepCandle dm s ic).equity_curve.length =
      s.equity_curve.length + (if truthyQ ic.2.close then 1 else 0) := by
  rcases ic with ⟨i, c⟩
  cases hcl : c.close with
  | none =>
    rw [stepCandle_skip dm s i c (Or.inl hcl)]
    simp [truthyQ, hcl]
  | some price =>
    by_cases hz : price = 0
    · rw [stepCandle_skip dm s i c (Or.inr (hz ▸ hcl))]
      simp [truthyQ, hcl, hz]
    · rw [stepCandle_some dm s i c price hcl hz]
      simp [truthyQ, hcl, hz, applyAction_curve]

theorem foldl_curve_length (dm : ℤ → Option Decision) (l : List (ℕ × Candle)) :
    ∀ s : SimState, ((l.foldl (stepCandle dm) s).equity_curve).length =
      s.equity_curve.length + l.countP (fun ic => truthyQ ic.2.close) := by
  induction l with
  | nil => intro s; simp
  | cons ic rest ih =>
    intro s
    rw [List.foldl_cons, ih, List.countP_cons, stepCandle_curve_length]
    by_cases h : truthyQ ic.2.close = true <;> simp [h] <;> omega

theorem curve_extends_aux (s X : SimState) (t0 : List EquityPoint)
    (h : X.equity_curve = s.equity_curve) :
    ∃ t, (SimState.mk X.equity X.position_size_usd X.entry_price
      X.total_realized_pnl X.trades (X.equity_curve ++ t0)).equity_curve =
        s.equity_curve ++ t :=
  ⟨t0, by simp [h]⟩

theorem stepCandle_curve_extends (dm : ℤ → Option Decision) (s : SimState)
    (ic : ℕ × Candle) :
    ∃ t, (stepCandle dm s ic).equity_curve = s.equity_curve ++ t := by
  rcases ic with ⟨i, c⟩
  cases hcl : c.close with
  | none => exact ⟨[], by rw [stepCandle_skip dm s i c (Or.inl hcl)]; simp⟩
  | some price =>
    by_cases hz : price = 0
    · exact ⟨[], by rw [stepCandle_skip dm s i c (Or.inr (hz ▸ hcl))]; simp⟩
    · rw [stepCandle_some dm s i c price hcl hz]
      exact curve_extends_aux s _ _ (applyAction_curve s i c price _ _)

theorem foldl_curve_extends (dm : ℤ → Option Decision) (l : List (ℕ × Candle)) :
    ∀ s : SimState, ∃ t, (l.foldl (stepCandle dm) s).equity_curve =
      s.equity_curve ++ t := by
  induction l with
  | nil => intro s; exact ⟨[], by simp⟩
  | cons ic rest ih =>
    intro s
    obtain ⟨t1, h1⟩ := stepCandle_curve_extends dm s ic
    obtain ⟨t2, h2⟩ := ih (stepCandle dm s ic)
    exact ⟨t1 ++ t2, by rw [List.foldl_cons, h2, h1, List.append_assoc]⟩

theorem finalizeState_curve (s : SimState) (cs : List Candle) :
    (finalizeState s cs).equity_curve = s.equity_curve := by
  simp only [finalizeState]
  cases hgl : cs.getLast? with
  | none => rfl
  | some lastc => split_ifs <;> rfl

theorem enumFrom_countP_snd (f : Candle → Bool) :
    ∀ (n : ℕ) (l : List Candle),
      (List.enumFrom n l).countP (fun p => f p.2) = l.countP f := by
  intro n l
  induction l generalizing n with
  | nil => rfl
  | cons c rest ih =>
    rw [show List.enumFrom n (c :: rest) = (n, c) :: List.enumFrom (n + 1) rest from rfl,
      List.countP_cons, List.countP_cons, ih]

theorem enumFrom_get? (l : List Candle) :
    ∀ (k n : ℕ), (List.enumFrom n l).get? k = (l.get? k).map (fun c => (n + k, c)) := by
  induction l with
  | nil => intro k n; simp
  | cons c rest ih =>
    intro k n
    cases k with
    | zero => simp
    | succ m =>
      rw [show List.enumFrom n (c :: rest) = (n, c) :: List.enumFrom (n + 1) rest from rfl]
      show (List.enumFrom (n + 1) rest).get? m = _
      rw [ih m (n + 1)]
      show (rest.get? m).map (fun c => (n + 1 + m, c)) = (rest.get? m).map (fun c => (n + (m + 1), c))
      rw [show n + 1 + m = n + (m + 1) by omega]

/-- C9, counterexample: a candle whose close is the falsy 0 is skipped by
the candle loop (`continue`) and receives no equity-curve point, so on
closes [100, 0, 80] the curve has 3 points, not `len(test_candles) + 1 = 4`. -/
theorem equity_curve_length_counterexample :
    (simulate_pnl [] falsyCloseCandles).equity_curve.length ≠
      falsyCloseCandles.length + 1 := by
  with_unfolding_all decide

/-- C9 (amended): the equity curve contains the synthetic pre-fold point at
equity 1.0 (first in the curve) plus exactly one point per PROCESSED test
candle — one whose close is present and nonzero; candles with a falsy close
are skipped and get no point, so the length is 1 + (number of truthy
closes), not always `len(test_candles) + 1`.  Each per-candle point's
equity is the post-action equity plus the pre-action unrealized PnL of the
open position at that candle (`equity + unrealized_pnl`), regardless of the
action taken. -/
theorem equity_curve_per_processed_candle :
    (∀ (decisions : List Decision) (test_candles : List Candle),
      (simulate_pnl decisions test_candles).equity_curve.length =
        1 + test_candles.countP (fun c => truthyQ c.close) ∧
      (simulate_pnl decisions test_candles).equity_curve.head? = some startPoint) ∧
    (∀ (decisions : List Decision) (test_candles : List Candle) (n : ℕ)
      (c : Candle) (p : ℚ),
      test_candles.get? n = some c → c.close = some p → ¬ p = 0 →
      (stateAfter decisions test_candles (n + 1)).equity_curve =
        (stateAfter decisions test_candles n).equity_curve ++
          [{ candle_idx := (n : ℤ),
             equity := (stateAfter decisions test_candles (n + 1)).equity +
               unrealizedPnl (stateAfter decisions test_candles n) p,
             timestamp := c.timestamp, price := some p,
             action := some (((buildDecisionMap decisions (n : ℤ)).getD
               holdDefault).action.getD "HOLD") }]) := by
  constructor
  · intro decisions test_candles
    constructor
    · show (finalizeState (simLoop (buildDecisionMap decisions) test_candles)
        test_candles).equity_curve.length = _
      rw [finalizeState_curve, simLoop, foldl_curve_length]
      rw [show test_candles.enum = List.enumFrom 0 test_candles from rfl,
        enumFrom_countP_snd (fun c => truthyQ c.close) 0 test_candles]
      rfl
    · show (finalizeState (simLoop (buildDecisionMap decisions) test_candles)
        test_candles).equity_curve.head? = _
      rw [finalizeState_curve, simLoop]
      obtain ⟨t, ht⟩ := foldl_curve_extends (buildDecisionMap decisions)
        test_candles.enum initSimState
      rw [ht]
      rfl
  · intro decisions test_candles n c p hget hcl hz
    have henum : test_candles.enum.get? n = some (n, c) := by
      rw [show test_candles.enum = List.enumFrom 0 test_candles from rfl,
        enumFrom_get? test_candles n 0, hget]
      simp
    have htake : test_candles.enum.take (n + 1) =
        test_candles.enum.take n ++ [(n, c)] := by
      rw [List.get?_eq_getElem?] at henum
      rw [List.take_succ, henum]
      rfl
    show (stateAfter decisions test_candles (n + 1)).equity_curve = _
    rw [show stateAfter decisions test_candles (n + 1) =
      stepCandle (buildDecisionMap decisions)
        (stateAfter decisions test_candles n) (n, c) from by
        rw [stateAfter, htake, List.foldl_append]
        rfl]
    rw [stepCandle_some (buildDecisionMap decisions) _ n c p hcl hz]
    show (applyAction _ n c p _ _).equity_curve ++ _ = _
    rw [applyAction_curve]

theorem equity_curve_per_processed_candle_witness :
    (scenarioCandles.get? 0 = some { timestamp := "t0", close := some 100 } ∧
      ({ timestamp := "t0", close := some 100 } : Candle).close = some 100 ∧
      ¬ (100 : ℚ) = 0) ∧
    (stateAfter [] scenarioCandles 1).equity_curve =
      (stateAfter [] scenarioCandles 0).equity_curve ++
        [{ candle_idx := (0 : ℤ),
           equity := (stateAfter [] scenarioCandles 1).equity +
             unrealizedPnl (stateAfter [] scenarioCandles 0) 100,
           timestamp := "t0", price := some 100,
           action := some (((buildDecisionMap [] (0 : ℤ)).getD
             holdDefault).action.getD "HOLD") }] :=
  ⟨⟨by with_unfolding_all decide, rfl, by norm_num⟩,
    equity_curve_per_processed_candle.2 [] scenarioCandles 0
      { timestamp := "t0", close := some 100 } 100
      (by with_unfolding_all decide) rfl (by norm_num)⟩

theorem le_foldl_max (t : List ℚ) : ∀ a : ℚ, a ≤ t.foldl max a := by
  induction t with
  | nil => intro a; exact le_refl a
  | cons b t' ih =>
    intro a
    rw [List.foldl_cons]
    exact le_trans (le_max_left a b) (ih (max a b))

theorem foldl_max_mem (t : List ℚ) : ∀ a : ℚ, t.foldl max a = a ∨ t.foldl max a ∈ t := by
  induction t with
  | nil => intro a; left; rfl
  | cons b t' ih =>
    intro a
    rw [List.foldl_cons]
    rcases ih (max a b) with h | h
    · rcases max_choice a b with hm | hm
      · left; rw [h, hm]
      · right; rw [h, hm]; exact List.mem_cons_self b t'
    · right; exact List.mem_cons_of_mem b h

theorem mem_le_foldl_max (t : List ℚ) : ∀ (a x : ℚ), x ∈ t → x ≤ t.foldl max a := by
  induction t with
  | nil => intro a x hx; cases hx
  | cons b t' ih =>
    intro a x hx
    rw [List.foldl_cons]
    rcases List.mem_cons.mp hx with rfl | hx'
    · exact le_trans (le_max_right a x) (le_foldl_max t' (max a x))
    · exact ih (max a b) x hx'

theorem listMax_mem {l : List ℚ} (h : l ≠ []) : listMax l ∈ l := by
  cases l with
  | nil => exact absurd rfl h
  | cons b t =>
    rcases foldl_max_mem t b with hm | hm
    · rw [show listMax (b :: t) = t.foldl max b from rfl, hm]
      exact List.mem_cons_self b t
    · exact List.mem_cons_of_mem b hm

theorem le_listMax {l : List ℚ} {x : ℚ} (hx : x ∈ l) : x ≤ listMax l := by
  cases l with
  | nil => cases hx
  | cons b t =>
    rcases List.mem_cons.mp hx with rfl | hx'
    · exact le_foldl_max t x
    · exact mem_le_foldl_max t b x hx'

theorem foldl_min_le (t : List ℚ) : ∀ a : ℚ, t.foldl min a ≤ a := by
  induction t with
  | nil => intro a; exact le_refl a
  | cons b t' ih =>
    intro a
    rw [List.foldl_cons]
    exact le_trans (ih (min a b)) (min_le_left a b)

theorem foldl_min_mem (t : List ℚ) : ∀ a : ℚ, t.foldl min a = a ∨ t.foldl min a ∈ t := by
  induction t with
  | nil => intro a; left; rfl
  | cons b t' ih =>
    intro a
    rw [List.foldl_cons]
    rcases ih (min a b) with h | h
    · rcases min_choice a b with hm | hm
      · left; rw [h, hm]
      · right; rw [h, hm]; exact List.mem_cons_self b t'
    · right; exact List.mem_cons_of_mem b h

theorem foldl_min_le_mem (t : List ℚ) : ∀ (a x : ℚ), x ∈ t → t.foldl min a ≤ x := by
  induction t with
  | nil => intro a x hx; cases hx
  | cons b t' ih =>
    intro a x hx
    rw [List.foldl_cons]
    rcases List.mem_cons.mp hx with rfl | hx'
    · exact le_trans (foldl_min_le t' (min a x)) (min_le_right a x)
    · exact ih (min a b) x hx'

theorem listMin_mem {l : List ℚ} (h : l ≠ []) : listMin l ∈ l := by
  cases l with
  | nil => exact absurd rfl h
  | cons b t =>
    rcases foldl_min_mem t b with hm | hm
    · rw [show listMin (b :: t) = t.foldl min b from rfl, hm]
      exact List.mem_cons_self b t
    · exact List.mem_cons_of_mem b hm

theorem listMin_le {l : List ℚ} {x : ℚ} (hx : x ∈ l) : listMin l ≤ x := by
  cases l with
  | nil => cases hx
  | cons b t =>
    rcases List.mem_cons.mp hx with rfl | hx'
    · exact foldl_min_le t x
    · exact foldl_min_le_mem t b x hx'

theorem listMax_perm {l₁ l₂ : List ℚ} (p : l₁.Perm l₂) : listMax l₁ = listMax l₂ := by
  rcases eq_or_ne l₁ [] with rfl | h1
  · rw [← p.nil_eq]
  · have h2 : l₂ ≠ [] := by
      intro hnil
      exact h1 ((hnil ▸ p).eq_nil)
    exact le_antisymm (le_listMax (p.mem_iff.mp (listMax_mem h1)))
      (le_listMax (p.mem_iff.mpr (listMax_mem h2)))

theorem listMin_perm {l₁ l₂ : List ℚ} (p : l₁.Perm l₂) : listMin l₁ = listMin l₂ := by
  rcases eq_or_ne l₁ [] with rfl | h1
  · rw [← p.nil_eq]
  · have h2 : l₂ ≠ [] := by
      intro hnil
      exact h1 ((hnil ▸ p).eq_nil)
    exact le_antisymm (listMin_le (p.mem_iff.mpr (listMin_mem h2)))
      (listMin_le (p.mem_iff.mp (listMin_mem h1)))

theorem perm_isEmpty {α : Type} {l₁ l₂ : List α} (p : l₁.Perm l₂) :
    l₁.isEmpty = l₂.isEmpty := by
  have hlen := p.length_eq
  cases l₁ <;> cases l₂ <;> first | rfl | simp at hlen

/-- C8: the cross-fold aggregation of `run_backtest` is a pure,
order-independent reduction — permuting the fold-result sequence leaves
every field of the aggregate unchanged — and on an empty fold sequence
every rate and average field is the defined value 0 rather than a
division-by-zero error. -/
theorem aggregate_perm_invariant_and_empty_defined :
    (∀ (rs rs' : List PnlResult), rs.Perm rs' →
      aggregateResults rs = aggregateResults rs') ∧
    aggregateResults [] =
      { total_folds := 0, winning_folds := 0, win_rate_pct := 0,
        alpha_positive_folds := 0, alpha_positive_rate_pct := 0,
        avg_agent_return_pct := 0, avg_btc_return_pct := 0, avg_alpha_pct := 0,
        max_agent_return_pct := 0, min_agent_return_pct := 0,
        avg_trades_per_fold := 0, total_trades := 0 } := by
  constructor
  · intro rs rs' p
    have pa := p.map PnlResult.agent_return_pct
    have pb := p.map PnlResult.btc_return_pct
    have pal := p.map PnlResult.alpha_pct
    have pt := p.map PnlResult.num_trades
    have hlen := p.length_eq
    have hE : rs.isEmpty = rs'.isEmpty := perm_isEmpty p
    have hEa := perm_isEmpty pa
    have hEb := perm_isEmpty pb
    have hEal := perm_isEmpty pal
    have hEt := perm_isEmpty pt
    simp only [aggregateResults, hE, hEa, hEb, hEal, hEt, hlen, List.length_map,
      pa.sum_eq, pb.sum_eq, pal.sum_eq, pt.sum_eq, listMax_perm pa, listMin_perm pa,
      pa.countP_eq, pal.countP_eq]
  · rfl

theorem aggregate_perm_witness :
    [foldResultA, foldResultB].Perm [foldResultB, foldResultA] ∧
    aggregateResults [foldResultA, foldResultB] =
      aggregateResults [foldResultB, foldResultA] := by
  have hperm : [foldResultA, foldResultB].Perm [foldResultB, foldResultA] :=
    List.Perm.swap foldResultB foldResultA []
  exact ⟨hperm, aggregate_perm_invariant_and_empty_defined.1 _ _ hperm⟩

theorem windowsLoop_length_iff (candles : List Candle) (tc vc stride : ℕ)
    (hs : 0 < stride) :
    ∀ (fuel start fid : ℕ), candles.length + 1 ≤ fuel + start →
    ∀ k : ℕ, (k < (windowsLoop candles tc vc stride fuel start fid).length ↔
      start + k * stride + (tc + vc) ≤ candles.length) := by
  intro fuel
  induction fuel with
  | zero =>
    intro start fid hf k
    constructor
    · intro hk
      exact absurd hk (by simp [windowsLoop])
    · intro hle
      exfalso
      have hnn : 0 ≤ k * stride := Nat.zero_le _
      linarith
  | succ f ih =>
    intro start fid hf k
    by_cases hcond : start + (tc + vc) ≤ candles.length
    · rw [show windowsLoop candles tc vc stride (f + 1) start fid =
        mkWindow candles tc vc fid start ::
          windowsLoop candles tc vc stride f (start + stride) (fid + 1) from by
        rw [windowsLoop, if_pos hcond]]
      cases k with
      | zero =>
        rw [List.length_cons]
        constructor
        · intro _
          have : 0 * stride = 0 := Nat.zero_mul stride
          linarith
        · intro _
          exact Nat.succ_pos _
      | succ m =>
        rw [List.length_cons]
        have hf' : candles.length + 1 ≤ f + (start + stride) := by omega
        have hih := ih (start + stride) (fid + 1) hf' m
        have hmul : (m + 1) * stride = m * stride + stride := Nat.succ_mul m stride
        constructor
        · intro hk
          have h2 := hih.mp (Nat.lt_of_succ_lt_succ hk)
          linarith
        · intro hle
          exact Nat.succ_lt_succ (hih.mpr (by linarith))
    · rw [show windowsLoop candles tc vc stride (f + 1) start fid = [] from by
        rw [windowsLoop, if_neg hcond]]
      simp only [List.length_nil]
      constructor
      · intro hk
        exact absurd hk (Nat.not_lt_zero k)
      · intro hle
        exfalso
        have hnn : 0 ≤ k * stride := Nat.zero_le _
        have : ¬ start + (tc + vc) ≤ candles.length := hcond
        have hlt := Nat.lt_of_not_le this
        linarith

theorem windowsLoop_get? (candles : List Candle) (tc vc stride : ℕ) :
    ∀ (fuel start fid k : ℕ),
      k < (windowsLoop candles tc vc stride fuel start fid).length →
      (windowsLoop candles tc vc stride fuel start fid).get? k =
        some (mkWindow candles tc vc (fid + k) (start + k * stride)) := by
  intro fuel
  induction fuel with
  | zero =>
    intro start fid k hk
    exact absurd hk (by simp [windowsLoop])
  | succ f ih =>
    intro start fid k hk
    by_cases hcond : start + (tc + vc) ≤ candles.length
    · rw [show windowsLoop candles tc vc stride (f + 1) start fid =
        mkWindow candles tc vc fid start ::
          windowsLoop candles tc vc stride f (start + stride) (fid + 1) from by
        rw [windowsLoop, if_pos hcond]] at hk ⊢
      cases k with
      | zero =>
        rw [show fid + 0 = fid from rfl, Nat.zero_mul, Nat.add_zero]
        rfl
      | succ m =>
        rw [show ((mkWindow candles tc vc fid start ::
          windowsLoop candles tc vc stride f (start + stride) (fid + 1)).get? (m + 1)) =
          (windowsLoop candles tc vc stride f (start + stride) (fid + 1)).get? m from rfl]
        rw [ih (start + stride) (fid + 1) m (Nat.lt_of_succ_lt_succ (by
          rw [List.length_cons] at hk; exact hk))]
        rw [show fid + 1 + m = fid + (m + 1) by omega,
          show start + stride + m * stride = start + (m + 1) * stride from by
            rw [Nat.succ_mul]; ring]
    · rw [show windowsLoop candles tc vc stride (f + 1) start fid = [] from by
        rw [windowsLoop, if_neg hcond]] at hk
      exact absurd hk (by simp)

/-- C4: for parameters the fold generator accepts (enough candles, positive
stride), every emitted fold k has consecutive train/test slices with no gap,
no overlap and no truncation — test_start_idx = train_end_idx =
start_k + train_days*24 and test_end_idx = test_start_idx + test_days*24 —
its fold_id is its position k in the output, its start is k*stride_hours,
and a fold at position k exists exactly while k*stride_hours + total fits
in the candle list (the while-loop condition). -/
theorem sliding_window_fold_invariants (candles : List Candle)
    (train_days test_days stride_hours : ℕ)
    (h1 : (train_days + test_days) * 24 ≤ candles.length)
    (h2 : 0 < stride_hours) :
    ∃ ws : List Window,
      create_sliding_windows candles train_days test_days stride_hours = .ok ws ∧
      (∀ k : ℕ, k < ws.length ↔
        k * stride_hours + (train_days + test_days) * 24 ≤ candles.length) ∧
      (∀ k : ℕ, ∀ hk : k < ws.length,
        (ws.get ⟨k, hk⟩).fold_id = k ∧
        (ws.get ⟨k, hk⟩).train_start_idx = k * stride_hours ∧
        (ws.get ⟨k, hk⟩).train_end_idx = k * stride_hours + train_days * 24 ∧
        (ws.get ⟨k, hk⟩).test_start_idx = (ws.get ⟨k, hk⟩).train_end_idx ∧
        (ws.get ⟨k, hk⟩).test_end_idx =
          (ws.get ⟨k, hk⟩).test_start_idx + test_days * 24) := by
  have hsplit : (train_days + test_days) * 24 = train_days * 24 + test_days * 24 :=
    Nat.add_mul train_days test_days 24
  have hfuel : candles.length + 1 ≤ (candles.length + 1) + 0 := by omega
  have hiff := windowsLoop_length_iff candles (train_days * 24) (test_days * 24)
    stride_hours h2 (candles.length + 1) 0 0 hfuel
  refine ⟨windowsLoop candles (train_days * 24) (test_days * 24) stride_hours
    (candles.length + 1) 0 0, ?_, ?_, ?_⟩
  · simp only [create_sliding_windows]
    rw [if_neg (by omega : ¬ candles.length < train_days * 24 + test_days * 24)]
  · intro k
    rw [hiff k, hsplit]
    constructor <;> intro h <;> linarith
  · intro k hk
    have hget := windowsLoop_get? candles (train_days * 24) (test_days * 24)
      stride_hours (candles.length + 1) 0 0 k hk
    rw [List.get?_eq_get hk] at hget
    have hw := Option.some.inj hget
    have hbound : k * stride_hours + (train_days * 24 + test_days * 24) ≤
        candles.length := by
      have := (hiff k).mp hk
      linarith
    rw [hw]
    unfold mkWindow
    dsimp only
    refine ⟨Nat.zero_add k, Nat.zero_add _, by rw [Nat.zero_add], rfl, ?_⟩
    exact Nat.min_eq_left (by rw [Nat.zero_add]; linarith)

theorem sliding_window_fold_invariants_witness :
    ((1 + 1) * 24 ≤ gridCandles.length ∧ 0 < 24) ∧
    (∃ ws : List Window,
      create_sliding_windows gridCandles 1 1 24 = .ok ws ∧
      (∀ k : ℕ, k < ws.length ↔ k * 24 + (1 + 1) * 24 ≤ gridCandles.length) ∧
      (∀ k : ℕ, ∀ hk : k < ws.length,
        (ws.get ⟨k, hk⟩).fold_id = k ∧
        (ws.get ⟨k, hk⟩).train_start_idx = k * 24 ∧
        (ws.get ⟨k, hk⟩).train_end_idx = k * 24 + 1 * 24 ∧
        (ws.get ⟨k, hk⟩).test_start_idx = (ws.get ⟨k, hk⟩).train_end_idx ∧
        (ws.get ⟨k, hk⟩).test_end_idx =
          (ws.get ⟨k, hk⟩).test_start_idx + 1 * 24)) :=
  ⟨⟨by with_unfolding_all decide, by decide⟩,
    sliding_window_fold_invariants gridCandles 1 1 24
      (by with_unfolding_all decide) (by decide)⟩
